import Mathlib

/-!
Verification of the foreshadow-api tile/forecast server core.

Shallow embedding of the Python source under `src/tile_renderers/gfs_render/`:

* `ModelService.process_hour_offset`      (model_service.py, l. 229-238)
* `ModelService.update_and_get_min_max`   (model_service.py, l. 1000-1022)
* `ModelService._get_or_compute`          (model_service.py, l. 1043-1057)
* `LocalStorage.set/get/delete/_cleanup`  (caching/local_cache.py)
* `Interpolator.build_interpolator`       (interpolator.py, l. 26-36): clip/wrap
* `ModelService._select_grib_message` and the fallback ladder
* `InterpolatorCachingService` debounced L2 writes (model_service.py, l. 34-87)
* `ModelService.interpolate_value` point IDW (model_service.py, l. 147-196)

Python floats are modelled as exact rationals (`ℚ`) where the source only
uses `min`/`max`/comparison/field arithmetic, and as reals (`ℝ`) where the
source calls `math.sqrt`.  Python `%` on a positive modulus is `Int.emod`
for integers and `x - m * ⌊x / m⌋` for floats.  Wall-clock time is passed
explicitly as a rational number of seconds.
-/

namespace Foreshadow

/-! ## `ModelService.process_hour_offset` (model_service.py l. 229-238)

```python
def process_hour_offset(self, hour_offset: int) -> int:
    if hour_offset <= 120:
        return hour_offset
    delta = hour_offset - 120
    change = delta % 3
    if change == 0:
        return hour_offset
    elif change == 1:
        return hour_offset - 1
    return hour_offset + 1
```
-/
def process_hour_offset (hour_offset : ℤ) : ℤ :=
  if hour_offset ≤ 120 then hour_offset
  else
    let delta := hour_offset - 120
    let change := delta % 3
    if change = 0 then hour_offset
    else if change = 1 then hour_offset - 1
    else hour_offset + 1

/-! ## `ModelService.update_and_get_min_max` (model_service.py l. 1000-1022)

Per fixed key `(model, param_key, level, type_of_level, step_type)` the
shared-cache cell holds `Option (ℚ × ℚ)` — `none` models the key being
absent from the cache, `some (gmin, gmax)` a stored JSON pair.

```python
cached = self.cache.get(cache_key)
if cached:
    current_min, current_max = json.loads(cached)
    updated_min = min(current_min, new_min)
    updated_max = max(current_max, new_max)
else:
    updated_min, updated_max = new_min, new_max
self.cache.set(cache_key, json.dumps((updated_min, updated_max)))
return updated_min, updated_max
```

Starting from an empty cell and folding only well-formed pairs written by
this same function, the `json.JSONDecodeError` branch is unreachable, so it
is not modelled.
-/
def update_and_get_min_max (cached : Option (ℚ × ℚ)) (new_min new_max : ℚ) : ℚ × ℚ :=
  match cached with
  | some (current_min, current_max) => (min current_min new_min, max current_max new_max)
  | none => (new_min, new_max)

/-- Serialized sequence of `update_and_get_min_max` calls for one key,
starting from cache state `st`; each call stores its result back. -/
def runMinMax (st : Option (ℚ × ℚ)) (updates : List (ℚ × ℚ)) : Option (ℚ × ℚ) :=
  updates.foldl (fun s p => some (update_and_get_min_max s p.1 p.2)) st

/-! ## `ModelService._get_or_compute`, sequential projection
(model_service.py l. 1043-1057; `_cache_set` l. 1037-1041)

One call of `_get_or_compute` for a fixed key, as executed by a single
thread (the concurrent interleaving semantics is `SingleFlight` below).
`cache : Option V` is the cache cell for the key, `res : Option V` the
value the compute function returns (`None` ↦ `none`).  The result triple
is `(returned value, cache cell afterwards, whether compute ran)`.

```python
cached = self._cache_get(key)
if cached is not None:
    return cached
lock = self.key_locks.setdefault(key, threading.Lock())
with lock:
    cached = self._cache_get(key)
    if cached is not None:
        return cached
    result = compute_fn()
    if result is not None:
        self._cache_set(key, result, expire)
    return result
```
-/
def getOrCompute {V : Type} (cache : Option V) (res : Option V) :
    Option V × Option V × Bool :=
  match cache with
  | some v => (some v, some v, false)
  | none => (res, if res.isSome then res else none, true)

/-! ## `LocalStorage` (caching/local_cache.py) and
`InterpolatorCachingService.set_interpolator`'s L1 write
(model_service.py l. 75-77)

`CACHE_TTL = 3600` (caching/cache.py).  `data` and `data_time` are the two
dictionaries of `LocalStorage`; the wall clock (`datetime.now()`) is passed
explicitly in seconds.

```python
def set(self, key, value, expire: int = 0):
    with self._lock:
        self.data[key] = value
        if expire > 0:
            self.data_time[key] = datetime.now()

def get(self, key):
    with self._lock:
        if key in self.data:
            if key in self.data_time:
                if (datetime.now() - self.data_time[key]).total_seconds() > CACHE_TTL:
                    self.delete(key)
                    return None
            return self.data.get(key)
        return None
```

`self._lock` is a non-reentrant `threading.Lock`, and `delete` itself opens
`with self._lock`.  So the expired branch of `get` — and equally
`_cleanup_thread`, which calls `self.delete` while still inside
`with self._lock` — re-acquires the already-held lock and deadlocks: those
calls never return and never complete a deletion.  Operations that can hit
this path therefore return an `Option`, with `none` meaning the call hangs
forever.
-/
def CACHE_TTL : ℚ := 3600

structure LocalState (V : Type) where
  data : String → Option V
  data_time : String → Option ℚ

def LocalState.empty (V : Type) : LocalState V := ⟨fun _ => none, fun _ => none⟩

def ls_set {V : Type} (st : LocalState V) (key : String) (value : V)
    (expire : ℤ) (now : ℚ) : LocalState V :=
  { data := fun k => if k = key then some value else st.data k
    data_time :=
      if expire > 0 then fun k => if k = key then some now else st.data_time k
      else st.data_time }

/-- `LocalStorage.delete` as invoked by an outside caller (lock free). -/
def ls_delete {V : Type} (st : LocalState V) (key : String) : LocalState V :=
  { data := fun k => if k = key then none else st.data k
    data_time := fun k => if k = key then none else st.data_time k }

/-- `LocalStorage.get`.  `some (value?, state)` is a normal return; `none`
models the expired branch, whose `self.delete(key)` re-acquires the held
non-reentrant lock and deadlocks — the call never returns (and in
particular never returns absent). -/
def ls_get {V : Type} (st : LocalState V) (key : String) (now : ℚ) :
    Option (Option V × LocalState V) :=
  match st.data key with
  | none => some (none, st)
  | some v =>
    match st.data_time key with
    | some t => if now - t > CACHE_TTL then none else some (some v, st)
    | none => some (some v, st)

/-- One pass of `LocalStorage._cleanup_thread`'s body at wall-clock `now`.
`keys` is the (finite) iteration order of `self.data_time.items()`.  The
body snapshots the expired keys and then calls `self.delete` for each while
still holding the lock, so the first expired key deadlocks the sweeper
(`none`) before any deletion takes effect; a pass completes — leaving the
state unchanged — exactly when no listed timestamped key is expired. -/
def ls_sweep {V : Type} (st : LocalState V) (now : ℚ) (keys : List String) :
    Option (LocalState V) :=
  if keys.any (fun k =>
      match st.data_time k with
      | some t => decide (now - t > CACHE_TTL)
      | none => false)
  then none
  else some st

/-- The L1 half of `InterpolatorCachingService.set_interpolator`:
`self.local_cache.set(key, inter)` — `expire` is left at its default `0`. -/
def set_interpolator_L1 {V : Type} (st : LocalState V) (key : String) (inter : V)
    (now : ℚ) : LocalState V :=
  ls_set st key inter 0 now

/-! ## `Interpolator.build_interpolator` clip/wrap (interpolator.py l. 30-33)

```python
if lat_flip:
    lats = -lats
lats = np.clip(lats, -85.05112878, 85.05112878)
lons = (lons + 180) % 360 - 180
```

Numpy `%` on floats follows Python semantics: `x % m = x - m * floor(x / m)`
for `m > 0`, with result in `[0, m)`.
-/
def pyMod (x m : ℚ) : ℚ := x - m * ⌊x / m⌋

def MERC_LAT_LIMIT : ℚ := 8505112878 / 100000000

def clipLat (flip : Bool) (lat : ℚ) : ℚ :=
  let l := if flip then -lat else lat
  max (-MERC_LAT_LIMIT) (min MERC_LAT_LIMIT l)

def wrapLon (lon : ℚ) : ℚ := pyMod (lon + 180) 360 - 180

/-! ### Helper lemmas -/

theorem foldl_min_le_init (l : List ℚ) (a : ℚ) : l.foldl min a ≤ a := by
  induction l generalizing a with
  | nil => simp
  | cons x xs ih => exact le_trans (ih (min a x)) (min_le_left a x)

theorem foldl_min_le_mem (l : List ℚ) (a x : ℚ) (hx : x ∈ l) : l.foldl min a ≤ x := by
  induction l generalizing a with
  | nil => cases hx
  | cons y ys ih =>
    rcases List.mem_cons.mp hx with h | h
    · subst h
      exact le_trans (foldl_min_le_init ys (min a x)) (min_le_right a x)
    · exact ih (min a y) h

theorem le_foldl_max_init (l : List ℚ) (a : ℚ) : a ≤ l.foldl max a := by
  induction l generalizing a with
  | nil => simp
  | cons x xs ih => exact le_trans (le_max_left a x) (ih (max a x))

theorem le_foldl_max_mem (l : List ℚ) (a x : ℚ) (hx : x ∈ l) : x ≤ l.foldl max a := by
  induction l generalizing a with
  | nil => cases hx
  | cons y ys ih =>
    rcases List.mem_cons.mp hx with h | h
    · subst h
      exact le_trans (le_max_right a x) (le_foldl_max_init ys (max a x))
    · exact ih (max a y) h

theorem runMinMax_some (rest : List (ℚ × ℚ)) (a b : ℚ) :
    runMinMax (some (a, b)) rest =
      some ((rest.map Prod.fst).foldl min a, (rest.map Prod.snd).foldl max b) := by
  induction rest generalizing a b with
  | nil => rfl
  | cons p ps ih =>
    simp only [runMinMax, List.foldl_cons, List.map_cons] at *
    exact ih (min a p.1) (max b p.2)

theorem minMaxStep_rightCommutative :
    RightCommutative (fun (s : Option (ℚ × ℚ)) (p : ℚ × ℚ) =>
      some (update_and_get_min_max s p.1 p.2)) := by
  constructor
  intro s p q
  rcases s with _ | ⟨a, b⟩ <;>
    simp [update_and_get_min_max, min_assoc, max_assoc, min_comm p.1 q.1, max_comm p.2 q.2]

/-! ### Claim theorems: C5, C2, C10 -/

/-- C5: for every hour offset `h ∈ [0, 384]`, `process_hour_offset h = h` when
`h ≤ 120`; when `h > 120` the result is the multiple of 3 selected by the
residue `h % 3` (`0` keeps `h`, `1` gives `h - 1`, `2` gives `h + 1`), hence
divisible by 3; and the concrete values `121 ↦ 120`, `122 ↦ 123`, `123 ↦ 123`,
`384 ↦ 384`, `0 ↦ 0` hold. -/
theorem process_hour_offset_spec :
    (∀ h : ℤ, 0 ≤ h → h ≤ 384 →
      (h ≤ 120 → process_hour_offset h = h) ∧
      (120 < h →
        (3 ∣ process_hour_offset h) ∧
        (h % 3 = 0 → process_hour_offset h = h) ∧
        (h % 3 = 1 → process_hour_offset h = h - 1) ∧
        (h % 3 = 2 → process_hour_offset h = h + 1))) ∧
    process_hour_offset 121 = 120 ∧ process_hour_offset 122 = 123 ∧
    process_hour_offset 123 = 123 ∧ process_hour_offset 384 = 384 ∧
    process_hour_offset 0 = 0 := by
  refine ⟨fun h h0 h384 => ?_, by decide, by decide, by decide, by decide, by decide⟩
  simp only [process_hour_offset]
  constructor
  · intro hle
    rw [if_pos hle]
  · intro hgt
    rw [if_neg (by omega)]
    refine ⟨?_, ?_, ?_, ?_⟩ <;> split_ifs <;> omega

/-- Witness for C5 at `h = 123`. -/
theorem process_hour_offset_spec_witness : process_hour_offset 123 = 123 :=
  (((process_hour_offset_spec.1 123 (by decide) (by decide)).2 (by decide)).2.1 (by decide))

/-- C2: starting from an empty cache cell, after any nonempty serialized
sequence of `update_and_get_min_max` calls the stored pair is
(minimum of all folded minima, maximum of all folded maxima); the fold is
order-insensitive and idempotent; and the stored `gmin`/`gmax` bound every
folded pair. -/
theorem update_and_get_min_max_spec :
    (∀ (p : ℚ × ℚ) (rest : List (ℚ × ℚ)),
        runMinMax none (p :: rest) =
          some ((rest.map Prod.fst).foldl min p.1, (rest.map Prod.snd).foldl max p.2)) ∧
    (∀ ups ups' : List (ℚ × ℚ), ups.Perm ups' → runMinMax none ups = runMinMax none ups') ∧
    (∀ (st : Option (ℚ × ℚ)) (nm nM : ℚ),
        update_and_get_min_max (some (update_and_get_min_max st nm nM)) nm nM =
          update_and_get_min_max st nm nM) ∧
    (∀ (ups : List (ℚ × ℚ)) (g G : ℚ), runMinMax none ups = some (g, G) →
        ∀ q ∈ ups, g ≤ q.1 ∧ q.2 ≤ G) := by
  refine ⟨?_, ?_, ?_, ?_⟩
  · intro p rest
    simpa [runMinMax, update_and_get_min_max] using runMinMax_some rest p.1 p.2
  · intro ups ups' hperm
    haveI := minMaxStep_rightCommutative
    exact hperm.foldl_eq none
  · intro st nm nM
    rcases st with _ | ⟨a, b⟩ <;>
      simp [update_and_get_min_max, min_assoc, max_assoc]
  · intro ups g G hrun q hq
    rcases ups with _ | ⟨p, rest⟩
    · cases hq
    · have hclosed := runMinMax_some rest p.1 p.2
      have : runMinMax none (p :: rest) =
          some ((rest.map Prod.fst).foldl min p.1, (rest.map Prod.snd).foldl max p.2) := by
        simpa [runMinMax, update_and_get_min_max] using hclosed
      rw [this] at hrun
      injection hrun with hpair
      have hg : g = (rest.map Prod.fst).foldl min p.1 := (Prod.mk.injEq _ _ _ _ ▸ hpair).1.symm
      have hG : G = (rest.map Prod.snd).foldl max p.2 := (Prod.mk.injEq _ _ _ _ ▸ hpair).2.symm
      subst hg; subst hG
      rcases List.mem_cons.mp hq with h | h
      · subst h
        exact ⟨foldl_min_le_init _ _, le_foldl_max_init _ _⟩
      · exact ⟨foldl_min_le_mem _ _ _ (List.mem_map_of_mem Prod.fst h),
          le_foldl_max_mem _ _ _ (List.mem_map_of_mem Prod.snd h)⟩

/-- Witness for C2 on the sequence `(3,5), (1,4), (2,9)`. -/
theorem update_and_get_min_max_spec_witness :
    runMinMax none [((3 : ℚ), (5 : ℚ)), (1, 4), (2, 9)] = some (1, 9) := by
  have h := update_and_get_min_max_spec.1 ((3 : ℚ), (5 : ℚ)) [(1, 4), (2, 9)]
  rw [h]
  norm_num

/-- C10: `_get_or_compute` never caches a failed computation: when the
compute function returns `None` the cache cell stays empty, `None` is
returned, the compute ran, a subsequent call for the same key runs the
compute again; and whenever the cache cell changes at all, the computation
succeeded and the cell holds exactly its result. -/
theorem get_or_compute_never_caches_none :
    (∀ V : Type, getOrCompute (V := V) none none = (none, none, true)) ∧
    (∀ V : Type, (getOrCompute (V := V) ((getOrCompute (V := V) none none).2.1) none).2.2 = true) ∧
    (∀ (V : Type) (cache res : Option V),
        (getOrCompute cache res).2.1 ≠ cache →
          res.isSome = true ∧ (getOrCompute cache res).2.1 = res) := by
  refine ⟨fun V => rfl, fun V => rfl, ?_⟩
  intro V cache res hne
  rcases cache with _ | v
  · rcases res with _ | r
    · exact absurd rfl hne
    · exact ⟨rfl, rfl⟩
  · exact absurd rfl hne

/-- Witness for C10: a successful compute with result `5` is written to the
empty cache cell. -/
theorem get_or_compute_never_caches_none_witness :
    Option.isSome (some 5) = true ∧
      (getOrCompute (none : Option ℕ) (some 5)).2.1 = some 5 :=
  get_or_compute_never_caches_none.2.2 ℕ none (some 5) (by simp [getOrCompute])

/-! ### Claim theorems: C7, C8 -/

/-- C7 counterexample: the claim says a key written via `set_interpolator`
at time `t` reads as absent from the local store at any time later than
`t + CACHE_TTL`.  But `set_interpolator` calls `local_cache.set` with the
default `expire = 0`, so no timestamp is recorded: a read at
`CACHE_TTL + 1` seconds after a write at time `0` completes normally and
still returns the value. -/
theorem set_interpolator_L1_cex :
    CACHE_TTL + 1 > 0 + CACHE_TTL ∧
      Option.map Prod.fst
          (ls_get (set_interpolator_L1 (LocalState.empty ℕ) "k" 7 0) "k" (CACHE_TTL + 1))
        = some (some 7) := by
  constructor
  · norm_num [CACHE_TTL]
  · rfl

/-- C7 amended: an entry written via `set_interpolator` records no
timestamp (expire defaults to 0), so — provided the key carries no stale
timestamp from an earlier expiring write — a local-store read at any later
time completes normally and returns the value (state unchanged), and any
sweeper pass that completes leaves the entry in place.  No entry is ever
returned absent by lazy TTL eviction: for an entry written with
`expire > 0` and read strictly more than `CACHE_TTL` seconds later, the
expired branch of `LocalStorage.get` calls `self.delete` while holding the
non-reentrant lock and deadlocks instead of returning absent. -/
theorem set_interpolator_L1_ttl_amended :
    (∀ (V : Type) (st : LocalState V) (k : String) (v : V) (tset tget : ℚ),
        st.data_time k = none →
          ls_get (set_interpolator_L1 st k v tset) k tget =
            some (some v, set_interpolator_L1 st k v tset)) ∧
    (∀ (V : Type) (st : LocalState V) (k : String) (v : V) (tset tnow : ℚ)
        (keys : List String) (st' : LocalState V),
        ls_sweep (set_interpolator_L1 st k v tset) tnow keys = some st' →
          st'.data k = some v) ∧
    (∀ (V : Type) (st : LocalState V) (k : String) (v : V) (e : ℤ) (tset tget : ℚ),
        0 < e → tget - tset > CACHE_TTL →
          ls_get (ls_set st k v e tset) k tget = none) := by
  refine ⟨?_, ?_, ?_⟩
  · intro V st k v tset tget ht
    simp [ls_get, set_interpolator_L1, ls_set, ht]
  · intro V st k v tset tnow keys st' hsweep
    rw [ls_sweep] at hsweep
    split at hsweep
    · cases hsweep
    · cases hsweep
      simp [set_interpolator_L1, ls_set]
  · intro V st k v e tset tget he hexp
    simp [ls_get, ls_set, he, hexp]

/-- Witness for C7 (amended) at concrete values: write `7` under `"k"` at
time `0` with no expiry, then a read at time `5000` returns the value, a
sweeper pass over `["k"]` completes and keeps the key, and a read at time
`3601` of an `expire = 10` write made at time `0` hangs (`none`). -/
theorem set_interpolator_L1_ttl_amended_witness :
    ls_get (set_interpolator_L1 (LocalState.empty ℕ) "k" 7 0) "k" 5000 =
        some (some 7, set_interpolator_L1 (LocalState.empty ℕ) "k" 7 0) ∧
      (set_interpolator_L1 (LocalState.empty ℕ) "k" 7 0).data "k" = some 7 ∧
      ls_get (ls_set (LocalState.empty ℕ) "k" 7 10 0) "k" 3601 = none :=
  ⟨set_interpolator_L1_ttl_amended.1 ℕ (LocalState.empty ℕ) "k" 7 0 5000 rfl,
    set_interpolator_L1_ttl_amended.2.1 ℕ (LocalState.empty ℕ) "k" 7 0 5000 ["k"]
      (set_interpolator_L1 (LocalState.empty ℕ) "k" 7 0) rfl,
    set_interpolator_L1_ttl_amended.2.2 ℕ (LocalState.empty ℕ) "k" 7 10 0 3601 (by decide)
      (by norm_num [CACHE_TTL])⟩

/-- C8 counterexample: the claim says longitudes are wrapped into the
half-open interval `(−180, 180]`; but the wrap `(lon + 180) % 360 - 180`
sends `180` to `−180`, which is outside `(−180, 180]`. -/
theorem wrapLon_interval_cex :
    wrapLon 180 = -180 ∧ ¬(-180 < wrapLon 180 ∧ wrapLon 180 ≤ 180) := by
  have h : wrapLon 180 = -180 := by
    norm_num [wrapLon, pyMod]
  exact ⟨h, fun hc => by rw [h] at hc; exact absurd hc.1 (by norm_num)⟩

/-- C8 amended: after the optional latitude negation every latitude is
clipped into the closed interval `[−85.05112878, 85.05112878]`, and every
longitude is wrapped into the half-open interval `[−180, 180)` (closed on
the left, open on the right — not `(−180, 180]` as claimed); the wrap
changes the longitude by an integer multiple of 360. -/
theorem clip_wrap_amended :
    (∀ (flip : Bool) (lat : ℚ),
        -MERC_LAT_LIMIT ≤ clipLat flip lat ∧ clipLat flip lat ≤ MERC_LAT_LIMIT) ∧
    (∀ lon : ℚ,
        -180 ≤ wrapLon lon ∧ wrapLon lon < 180 ∧
          ∃ z : ℤ, lon - wrapLon lon = 360 * z) := by
  constructor
  · intro flip lat
    refine ⟨le_max_left _ _, max_le (by norm_num [MERC_LAT_LIMIT]) (min_le_left _ _)⟩
  · intro lon
    have hmod : pyMod (lon + 180) 360 = 360 * Int.fract ((lon + 180) / 360) := by
      unfold pyMod Int.fract
      rw [mul_sub, mul_div_cancel₀ _ (by norm_num : (360 : ℚ) ≠ 0)]
    have h0 : (0 : ℚ) ≤ pyMod (lon + 180) 360 := by
      rw [hmod]
      have := Int.fract_nonneg ((lon + 180) / 360)
      linarith
    have h1 : pyMod (lon + 180) 360 < 360 := by
      rw [hmod]
      have := Int.fract_lt_one ((lon + 180) / 360)
      nlinarith [Int.fract_lt_one ((lon + 180) / 360)]
    refine ⟨by simp only [wrapLon]; linarith, by simp only [wrapLon]; linarith, ?_⟩
    refine ⟨⌊(lon + 180) / 360⌋, ?_⟩
    simp only [wrapLon, pyMod]
    ring

/-! ## GRIB message selection (model_service.py l. 381-564)

A GRIB message is modelled by the four attributes the selector reads.
`grbs.select(**search)` is modelled as a pure filter returning the list of
matching messages: that is the contract the source's own
`len(sel) == 0` / `len(sel) > 1` branches assume (the pygrib library itself
is not part of this repository).  A key that is present in the `search`
dict with value `None` (as happens in `search_for_provided_level` and
`search_height_above_ground`, which always place `typeOfLevel`, `level`
resp. `stepType` in the dict) matches no message, because the GRIB
attributes are never `None`.
-/

structure GribMsg where
  name : String
  level : ℤ
  typeOfLevel : String
  stepType : String
deriving DecidableEq

/-- A criterion absent from the `search` dict: no constraint. -/
def optFilter {α : Type} [BEq α] : Option α → α → Bool
  | none, _ => true
  | some v, x => x == v

/-- A criterion present in the `search` dict, possibly with value `None`
(which then matches no message). -/
def optRequired {α : Type} [BEq α] : Option α → α → Bool
  | none, _ => false
  | some v, x => x == v

/-- The `search` dict built at the top of `_select_grib_message`: `name`
always, and each of `level`/`typeOfLevel`/`stepType` only when not `None`. -/
def selectExact (grbs : List GribMsg) (param_name : String) (level : Option ℤ)
    (type_of_level step_type : Option String) : List GribMsg :=
  grbs.filter fun g =>
    g.name == param_name && optFilter level g.level &&
      optFilter type_of_level g.typeOfLevel && optFilter step_type g.stepType

/-- `get_priority` inside `pull_priority_layers` (l. 453-462). -/
def get_priority (item : GribMsg) : ℕ :=
  if item.typeOfLevel = "surface" then 0
  else if item.typeOfLevel = "orderedSequenceData" ∧ (item.level = 0 ∨ item.level = 1) then 1
  else if item.typeOfLevel = "heightAboveGround" then 2
  else if item.typeOfLevel = "atmosphere" ∧ item.level = 0 then 3
  else 99

/-- `ModelService.fetch_instant` (l. 444-450). -/
def fetch_instant (grb : List GribMsg) : Option GribMsg :=
  if grb.length = 1 then grb.head?
  else (grb.filter fun g => g.stepType == "instant").head?

/-- `ModelService.pull_priority_layers` (l. 452-464): Python's stable
in-place `sort(key=get_priority)` is `List.insertionSort` (also stable),
then `fetch_instant` on the sorted list (the Python parameter `matches` is
a reserved word in Lean and is called `msgs` here). -/
abbrev prioLE (a b : GribMsg) : Prop := get_priority a ≤ get_priority b

def pull_priority_layers (msgs : List GribMsg) : Option GribMsg :=
  fetch_instant (msgs.insertionSort prioLE)

/-- `ModelService.search_for_provided_level` (l. 482-503): the select dict
always contains `name`, `typeOfLevel` and `level` (even when `None`), and
`stepType` only when given.  The `for i in range(2)` retry loop is pure,
hence equivalent to a single evaluation. -/
def search_for_provided_level (grbs : List GribMsg) (param_name : String)
    (type_of_level : Option String) (level : Option ℤ) (step_type : Option String) :
    Option GribMsg :=
  (grbs.filter fun g =>
    g.name == param_name && optRequired type_of_level g.typeOfLevel &&
      optRequired level g.level && optFilter step_type g.stepType).head?

/-- `ModelService.search_height_above_ground` (l. 505-516): skipped when
the requested level type already is `heightAboveGround`; otherwise select
`(name, typeOfLevel="heightAboveGround", level=2, stepType=step_type)`,
where `step_type` is always placed in the dict (`None` matches nothing). -/
def search_height_above_ground (grbs : List GribMsg) (param_name : String)
    (type_of_level step_type : Option String) : Option GribMsg :=
  if type_of_level = some "heightAboveGround" then none
  else
    (grbs.filter fun g =>
      g.name == param_name && g.typeOfLevel == "heightAboveGround" &&
        g.level == 2 && optRequired step_type g.stepType).head?

/-- `ModelService.search_iso_surface` (l. 518-528): walk the fixed
near-surface isobaric levels; on the first level with any match, return
`fetch_instant` of the matches (even when that is `None`). -/
def search_iso_levels (grbs : List GribMsg) (param_name : String) :
    List ℤ → Option GribMsg
  | [] => none
  | lvl :: rest =>
    let found := grbs.filter fun g =>
      g.name == param_name && g.typeOfLevel == "isobaricInhPa" && g.level == lvl
    if found.isEmpty then search_iso_levels grbs param_name rest
    else fetch_instant found

def search_iso_surface (grbs : List GribMsg) (param_name : String) : Option GribMsg :=
  search_iso_levels grbs param_name [1000, 975, 950, 925, 900, 850]

/-- `ModelService.fetch_near_surface_fallback` (l. 466-480): the Python
function computes `pull_priority_layers(matches)` but has no `return`
statement, so it always returns `None`. -/
def fetch_near_surface_fallback (_grbs : List GribMsg) : Option GribMsg := none

/-- `ModelService.search_param_only_and_find_surface` (l. 530-540). -/
def search_param_only_and_find_surface (grbs : List GribMsg) (param_name : String) :
    Option GribMsg :=
  let found := grbs.filter fun g => g.name == param_name
  if found.isEmpty then none
  else
    match fetch_near_surface_fallback found with
    | some f => some f
    | none => found.head?

/-- `ModelService.fetch_with_fallbacks` (l. 542-564). -/
def fetch_with_fallbacks (grbs : List GribMsg) (param_name : String)
    (type_of_level : Option String) (level : Option ℤ) (step_type : Option String) :
    Option GribMsg :=
  match search_for_provided_level grbs param_name type_of_level level step_type with
  | some l => some l
  | none =>
    match search_height_above_ground grbs param_name type_of_level step_type with
    | some l => some l
    | none =>
      match search_iso_surface grbs param_name with
      | some l => some l
      | none => search_param_only_and_find_surface grbs param_name

/-- `ModelService._select_grib_message` (l. 381-416). -/
def select_grib_message (grbs : List GribMsg) (param_name : String)
    (level : Option ℤ) (type_of_level step_type : Option String) : Option GribMsg :=
  let sel := selectExact grbs param_name level type_of_level step_type
  if sel.length = 1 then sel.head?
  else if sel.length = 0 ∧ level ≠ none ∧ type_of_level ≠ none ∧ step_type ≠ none then
    none
  else if 1 < sel.length then
    match pull_priority_layers sel with
    | some p => some p
    | none => fetch_with_fallbacks grbs param_name type_of_level level step_type
  else fetch_with_fallbacks grbs param_name type_of_level level step_type

/-! ### Claim theorems: C4, C6 -/

/-- C4: when `level`, `levelType` and `stepType` are all three specified and
the exact match is empty, `_select_grib_message` returns absent without
applying the fallback ladder; in particular selecting
`("Temperature", level=2, heightAboveGround, instant)` against a file
containing only `("Temperature", surface, 0, instant)` returns absent. -/
theorem select_exact_required_fails :
    (∀ (grbs : List GribMsg) (pname : String) (l : ℤ) (t s : String),
        selectExact grbs pname (some l) (some t) (some s) = [] →
          select_grib_message grbs pname (some l) (some t) (some s) = none) ∧
    select_grib_message [⟨"Temperature", 0, "surface", "instant"⟩] "Temperature"
        (some 2) (some "heightAboveGround") (some "instant") = none := by
  refine ⟨?_, by decide⟩
  intro grbs pname l t s hsel
  simp [select_grib_message, hsel]

/-- Witness for C4 at the concrete file `[("Temperature", surface, 0,
instant)]` and the selector `("Temperature", 2, heightAboveGround,
instant)`. -/
theorem select_exact_required_fails_witness :
    select_grib_message [⟨"Temperature", 0, "surface", "instant"⟩] "Temperature"
        (some 2) (some "heightAboveGround") (some "instant") = none :=
  select_exact_required_fails.1 [⟨"Temperature", 0, "surface", "instant"⟩]
    "Temperature" 2 "heightAboveGround" "instant" (by decide)

/-- C6 counterexample: the claim says the priority selector returns a
message of the minimal surface-priority class present.  On the two matches
`(surface, stepType="avg")` (class 0) and `(heightAboveGround,
stepType="instant")` (class 2), `pull_priority_layers` returns the
class-2 message although a class-0 message is present, because
`fetch_instant` filters for `stepType == "instant"` over all sorted
matches, not just the minimal class. -/
theorem pull_priority_minimal_class_cex :
    pull_priority_layers
        [⟨"X", 0, "surface", "avg"⟩, ⟨"X", 2, "heightAboveGround", "instant"⟩] =
      some ⟨"X", 2, "heightAboveGround", "instant"⟩ ∧
    get_priority ⟨"X", 2, "heightAboveGround", "instant"⟩ = 2 ∧
    get_priority ⟨"X", 0, "surface", "avg"⟩ = 0 := by
  refine ⟨by decide, by decide, by decide⟩

/-- C6 amended: on two or more matches, if no match has
`stepType == "instant"` the priority selector returns none; if some match
is `"instant"`, it returns an `"instant"` match whose surface-priority
class (surface = 0, orderedSequenceData with level in {0,1} = 1,
heightAboveGround = 2, atmosphere with level 0 = 3, else 99) is minimal
among the `"instant"` matches — not necessarily the minimal class present
over all matches. -/
theorem pull_priority_amended (msgs : List GribMsg) (hlen : 2 ≤ msgs.length) :
    ((∀ m ∈ msgs, m.stepType ≠ "instant") → pull_priority_layers msgs = none) ∧
    (∀ m₀ ∈ msgs, m₀.stepType = "instant" →
      ∃ m, pull_priority_layers msgs = some m ∧ m ∈ msgs ∧ m.stepType = "instant" ∧
        ∀ m' ∈ msgs, m'.stepType = "instant" → get_priority m ≤ get_priority m') := by
  haveI : IsTotal GribMsg prioLE := ⟨fun a b => le_total _ _⟩
  haveI : IsTrans GribMsg prioLE := ⟨fun _ _ _ hab hbc => le_trans hab hbc⟩
  have sortPerm : (msgs.insertionSort prioLE).Perm msgs := List.perm_insertionSort _ msgs
  have sortLen : (msgs.insertionSort prioLE).length = msgs.length := sortPerm.length_eq
  have sortSorted : List.Sorted prioLE (msgs.insertionSort prioLE) :=
    List.sorted_insertionSort _ msgs
  have hne1 : ¬(msgs.insertionSort prioLE).length = 1 := by omega
  have hne1' : ¬msgs.length = 1 := by omega
  constructor
  · intro hno
    have hfil : (msgs.insertionSort prioLE).filter (fun g => g.stepType == "instant") = [] := by
      rw [List.filter_eq_nil_iff]
      intro a ha
      simpa using hno a (sortPerm.mem_iff.mp ha)
    simp [pull_priority_layers, fetch_instant, hne1, hne1', hfil]
  · intro m₀ hm₀ hstep
    have hmem : m₀ ∈ (msgs.insertionSort prioLE).filter (fun g => g.stepType == "instant") :=
      List.mem_filter.mpr ⟨sortPerm.mem_iff.mpr hm₀, by simpa using hstep⟩
    obtain ⟨m, tail, hF⟩ :=
      List.exists_cons_of_ne_nil (List.ne_nil_of_mem hmem)
    have hpull : pull_priority_layers msgs = some m := by
      simp [pull_priority_layers, fetch_instant, hne1, hne1', hF]
    have hmF : m ∈ (msgs.insertionSort prioLE).filter (fun g => g.stepType == "instant") := by
      rw [hF]; exact List.mem_cons_self m tail
    obtain ⟨hmSort, hmInst⟩ := List.mem_filter.mp hmF
    have hFsorted : List.Sorted prioLE
        ((msgs.insertionSort prioLE).filter (fun g => g.stepType == "instant")) :=
      List.Pairwise.filter _ sortSorted
    refine ⟨m, hpull, sortPerm.mem_iff.mp hmSort, by simpa using hmInst, ?_⟩
    intro m' hm' hstep'
    have hm'F : m' ∈ (msgs.insertionSort prioLE).filter (fun g => g.stepType == "instant") :=
      List.mem_filter.mpr ⟨sortPerm.mem_iff.mpr hm', by simpa using hstep'⟩
    rw [hF] at hm'F hFsorted
    rcases List.mem_cons.mp hm'F with h | h
    · subst h; exact le_refl _
    · exact List.rel_of_sorted_cons hFsorted m' h

/-- Witness for C6 (amended) on the matches of the counterexample: the
selector returns a message (it is not absent). -/
theorem pull_priority_amended_witness :
    pull_priority_layers
        [⟨"X", 0, "surface", "avg"⟩, ⟨"X", 2, "heightAboveGround", "instant"⟩] ≠ none := by
  obtain ⟨m, hm, -, -, -⟩ :=
    (pull_priority_amended
        [⟨"X", 0, "surface", "avg"⟩, ⟨"X", 2, "heightAboveGround", "instant"⟩]
        (by decide)).2
      ⟨"X", 2, "heightAboveGround", "instant"⟩ (by decide) rfl
  simp [hm]

/-! ## Debounced L2 writes (model_service.py l. 34-87)

`InterpolatorCachingService` state for one fixed key.  `set_interpolator`
cancels any armed timer for the key, records the latest value, and arms a
fresh `Timer(DEBOUNCE_INTERVAL, self._debounce_callback)`; when a timer
fires, `_debounce_callback` pops the latest recorded value and writes it to
the L2 (global) cache.

The timeline for a single key is a list of `Set` operations
`(time, value)`, processed in time order.  `pending = some (v, dl)` models
`debounce_map[key] = (v, timer)` with the timer due at `dl`.  A `Set` at
time `u` finds the previous timer already fired exactly when `dl ≤ u`
(`Timer.cancel` is a no-op once the callback ran; at `dl` itself the
callback has started, so `dl ≤ u` counts as fired); in that case the fired
callback produced an L2 write of the previously recorded value at its
deadline.  `debounceFinalWrites` lets the last armed timer fire
(quiescence after the last `Set`).
-/

def DEBOUNCE_INTERVAL : ℚ := 3 / 10

structure DebounceState (V : Type) where
  writes : List (ℚ × V)
  pending : Option (V × ℚ)

/-- Effect of `set_interpolator` at time `op.1` with value `op.2`. -/
def debounceStep {V : Type} (s : DebounceState V) (op : ℚ × V) : DebounceState V :=
  match s.pending with
  | none => ⟨s.writes, some (op.2, op.1 + DEBOUNCE_INTERVAL)⟩
  | some (v, dl) =>
    if dl ≤ op.1 then ⟨s.writes ++ [(dl, v)], some (op.2, op.1 + DEBOUNCE_INTERVAL)⟩
    else ⟨s.writes, some (op.2, op.1 + DEBOUNCE_INTERVAL)⟩

def debounceRun {V : Type} (ops : List (ℚ × V)) : DebounceState V :=
  ops.foldl debounceStep ⟨[], none⟩

/-- All L2 writes of the timeline: those fired during the `Set` sequence
plus the one produced by the last armed timer after quiescence. -/
def debounceFinalWrites {V : Type} (ops : List (ℚ × V)) : List (ℚ × V) :=
  match debounceRun ops with
  | ⟨w, none⟩ => w
  | ⟨w, some (v, dl)⟩ => w ++ [(dl, v)]

/-- `Set` times are nondecreasing and each later `Set` falls strictly
inside the debounce window opened at time `t` resp. at the previous
`Set`. -/
def chainFromB {V : Type} : ℚ → List (ℚ × V) → Bool
  | _, [] => true
  | t, a :: rest =>
    decide (t ≤ a.1) && decide (a.1 < t + DEBOUNCE_INTERVAL) && chainFromB a.1 rest

theorem debounce_aux {V : Type} (ops : List (ℚ × V)) :
    ∀ (t : ℚ) (v : V) (w : List (ℚ × V)), chainFromB t ops = true →
      ops.foldl debounceStep ⟨w, some (v, t + DEBOUNCE_INTERVAL)⟩ =
        ⟨w, some ((ops.getLastD (t, v)).2, (ops.getLastD (t, v)).1 + DEBOUNCE_INTERVAL)⟩ := by
  induction ops with
  | nil => intro t v w _; rfl
  | cons a rest ih =>
    intro t v w hc
    simp only [chainFromB, Bool.and_eq_true, decide_eq_true_eq] at hc
    obtain ⟨⟨hta, hlt⟩, hrest⟩ := hc
    have hstep : debounceStep ⟨w, some (v, t + DEBOUNCE_INTERVAL)⟩ a =
        ⟨w, some (a.2, a.1 + DEBOUNCE_INTERVAL)⟩ := by
      simp [debounceStep, not_le.mpr hlt]
    rw [List.foldl_cons, hstep, ih a.1 a.2 w hrest, List.getLastD_cons]

theorem chain_le_last {V : Type} (ops : List (ℚ × V)) :
    ∀ (t : ℚ) (d : ℚ × V), d.1 = t → chainFromB t ops = true →
      t ≤ (ops.getLastD d).1 ∧ ∀ p ∈ ops, p.1 ≤ (ops.getLastD d).1 := by
  induction ops with
  | nil => intro t d hd _; simp [List.getLastD, hd]
  | cons a rest ih =>
    intro t d _ hc
    simp only [chainFromB, Bool.and_eq_true, decide_eq_true_eq] at hc
    obtain ⟨⟨hta, _⟩, hrest⟩ := hc
    obtain ⟨hle, hall⟩ := ih a.1 a rfl hrest
    rw [List.getLastD_cons]
    refine ⟨le_trans hta hle, ?_⟩
    intro p hp
    rcases List.mem_cons.mp hp with h | h
    · subst h; exact hle
    · exact hall p h

/-- C1: for a fixed key, if all `Set(k, v₁) … Set(k, vN)` fall within the
debounce window of their predecessor (strictly less than `0.3 s` apart,
times nondecreasing), then exactly one L2 write occurs for the key, its
value is `vN` (the last value set), and it happens strictly after every
`Set` — in particular no intermediate value is ever written to L2. -/
theorem debounce_single_write {V : Type} (o : ℚ × V) (rest : List (ℚ × V))
    (hc : chainFromB o.1 rest = true) :
    debounceFinalWrites (o :: rest) =
        [(((o :: rest).getLastD o).1 + DEBOUNCE_INTERVAL, ((o :: rest).getLastD o).2)] ∧
    ∀ p ∈ o :: rest, p.1 < ((o :: rest).getLastD o).1 + DEBOUNCE_INTERVAL := by
  have hrun : debounceRun (o :: rest) =
      ⟨[], some ((rest.getLastD o).2, (rest.getLastD o).1 + DEBOUNCE_INTERVAL)⟩ := by
    simp only [debounceRun, List.foldl_cons]
    have hfirst : debounceStep ⟨[], none⟩ o = ⟨[], some (o.2, o.1 + DEBOUNCE_INTERVAL)⟩ := rfl
    rw [hfirst, debounce_aux rest o.1 o.2 [] hc]
  constructor
  · have hcons : (o :: rest).getLastD o = rest.getLastD o := List.getLastD_cons o o rest
    rw [hcons]
    simp [debounceFinalWrites, hrun]
  · intro p hp
    obtain ⟨hle, hall⟩ := chain_le_last rest o.1 o rfl hc
    rw [List.getLastD_cons]
    have hD : (0 : ℚ) < DEBOUNCE_INTERVAL := by norm_num [DEBOUNCE_INTERVAL]
    rcases List.mem_cons.mp hp with h | h
    · subst h; linarith
    · have := hall p h; linarith

/-- Witness for C1: three sets of values `1, 2, 3` at times `0, 0.1, 0.2`
produce the single L2 write `(0.5, 3)`. -/
theorem debounce_single_write_witness :
    debounceFinalWrites [((0 : ℚ), (1 : ℕ)), (1/10, 2), (2/10, 3)] = [(1/2, 3)] :=
  (debounce_single_write ((0 : ℚ), (1 : ℕ)) [(1/10, 2), (2/10, 3)]
      (by norm_num [chainFromB, DEBOUNCE_INTERVAL])).1.trans
    (by norm_num [DEBOUNCE_INTERVAL])

/-! ## SingleFlight: concurrent `_get_or_compute` (model_service.py l. 1043-1057)

Interleaving semantics of `n` threads all calling `_get_or_compute` for the
same key.  Each thread runs:

```python
cached = self._cache_get(key)          # start:   hit → return, miss → waiting
if cached is not None: return cached
lock = self.key_locks.setdefault(key, threading.Lock())
with lock:                             # waiting: acquire → locked
    cached = self._cache_get(key)      # locked:  hit → release, return
    if cached is not None: return cached
    result = compute_fn()              # locked → computing   (compute runs)
    if result is not None:
        self._cache_set(key, result, expire)
    return result                      # computing → done     (set cache, release)
```

The compute function is deterministic for a fixed key, returning
`res : Option V` (`none` models a failed build).  `count` counts how many
times `compute_fn` has been entered; a thread is *executing the compute
function* exactly while its program counter is `computing`.  Cache reads
and writes for the key are atomic (a single shared cell). -/

inductive PC
  | start
  | waiting
  | locked
  | computing
  | done
deriving DecidableEq

structure SFState (n : ℕ) (V : Type) where
  cache : Option V
  lock : Option (Fin n)
  pcs : Fin n → PC
  count : ℕ

def SFState.init (n : ℕ) (V : Type) : SFState n V :=
  ⟨none, none, fun _ => .start, 0⟩

inductive SFStep {n : ℕ} {V : Type} (res : Option V) : SFState n V → SFState n V → Prop
  | start_hit (s : SFState n V) (i : Fin n) (v : V) :
      s.pcs i = .start → s.cache = some v →
      SFStep res s { s with pcs := Function.update s.pcs i .done }
  | start_miss (s : SFState n V) (i : Fin n) :
      s.pcs i = .start → s.cache = none →
      SFStep res s { s with pcs := Function.update s.pcs i .waiting }
  | acquire (s : SFState n V) (i : Fin n) :
      s.pcs i = .waiting → s.lock = none →
      SFStep res s { s with lock := some i, pcs := Function.update s.pcs i .locked }
  | recheck_hit (s : SFState n V) (i : Fin n) (v : V) :
      s.pcs i = .locked → s.lock = some i → s.cache = some v →
      SFStep res s { s with lock := none, pcs := Function.update s.pcs i .done }
  | recheck_miss (s : SFState n V) (i : Fin n) :
      s.pcs i = .locked → s.lock = some i → s.cache = none →
      SFStep res s
        { s with pcs := Function.update s.pcs i .computing, count := s.count + 1 }
  | compute_done (s : SFState n V) (i : Fin n) :
      s.pcs i = .computing → s.lock = some i →
      SFStep res s
        { s with cache := if res.isSome then res else s.cache,
                 lock := none, pcs := Function.update s.pcs i .done }

def SFReachable {n : ℕ} {V : Type} (res : Option V) (s : SFState n V) : Prop :=
  Relation.ReflTransGen (SFStep res) (SFState.init n V) s

/-- Inductive invariant of the single-flight protocol. -/
structure SFInv {n : ℕ} {V : Type} (res : Option V) (s : SFState n V) : Prop where
  lockOwner : ∀ i, s.pcs i = .computing → s.lock = some i
  cacheCount : s.cache.isSome = true → 1 ≤ s.count
  computingCount : ∀ i, s.pcs i = .computing → 1 ≤ s.count
  doneCount : ∀ i, s.pcs i = .done → 1 ≤ s.count
  countBound : res.isSome = true → s.count ≤ 1
  countWitness : res.isSome = true → s.count = 1 →
    s.cache.isSome = true ∨ ∃ i, s.pcs i = .computing

theorem SFInv.init {n : ℕ} {V : Type} (res : Option V) : SFInv res (SFState.init n V) := by
  refine ⟨?_, ?_, ?_, ?_, ?_, ?_⟩ <;> simp [SFState.init]

theorem SFInv.step {n : ℕ} {V : Type} {res : Option V} {s s' : SFState n V}
    (inv : SFInv res s) (hstep : SFStep res s s') : SFInv res s' := by
  cases hstep with
  | start_hit i v hpc hc =>
    refine ⟨?_, ?_, ?_, ?_, ?_, ?_⟩ <;> dsimp only
    · intro j hj
      rcases eq_or_ne j i with h | h
      · rw [h, Function.update_same] at hj; cases hj
      · rw [Function.update_noteq h] at hj; exact inv.lockOwner j hj
    · intro h; exact inv.cacheCount h
    · intro j hj
      rcases eq_or_ne j i with h | h
      · rw [h, Function.update_same] at hj; cases hj
      · rw [Function.update_noteq h] at hj; exact inv.computingCount j hj
    · intro j _; exact inv.cacheCount (by rw [hc]; rfl)
    · exact inv.countBound
    · intro hres hcount
      rcases inv.countWitness hres hcount with h | ⟨j, hj⟩
      · exact Or.inl h
      · refine Or.inr ⟨j, ?_⟩
        rcases eq_or_ne j i with h | h
        · rw [h, hpc] at hj; cases hj
        · rw [Function.update_noteq h]; exact hj
  | start_miss i hpc hc =>
    refine ⟨?_, ?_, ?_, ?_, ?_, ?_⟩ <;> dsimp only
    · intro j hj
      rcases eq_or_ne j i with h | h
      · rw [h, Function.update_same] at hj; cases hj
      · rw [Function.update_noteq h] at hj; exact inv.lockOwner j hj
    · exact inv.cacheCount
    · intro j hj
      rcases eq_or_ne j i with h | h
      · rw [h, Function.update_same] at hj; cases hj
      · rw [Function.update_noteq h] at hj; exact inv.computingCount j hj
    · intro j hj
      rcases eq_or_ne j i with h | h
      · rw [h, Function.update_same] at hj; cases hj
      · rw [Function.update_noteq h] at hj; exact inv.doneCount j hj
    · exact inv.countBound
    · intro hres hcount
      rcases inv.countWitness hres hcount with h | ⟨j, hj⟩
      · exact Or.inl h
      · refine Or.inr ⟨j, ?_⟩
        rcases eq_or_ne j i with h | h
        · rw [h, hpc] at hj; cases hj
        · rw [Function.update_noteq h]; exact hj
  | acquire i hpc hl =>
    refine ⟨?_, ?_, ?_, ?_, ?_, ?_⟩ <;> dsimp only
    · intro j hj
      rcases eq_or_ne j i with h | h
      · rw [h, Function.update_same] at hj; cases hj
      · rw [Function.update_noteq h] at hj
        exact absurd (inv.lockOwner j hj) (by rw [hl]; exact fun hcon => Option.noConfusion hcon)
    · exact inv.cacheCount
    · intro j hj
      rcases eq_or_ne j i with h | h
      · rw [h, Function.update_same] at hj; cases hj
      · rw [Function.update_noteq h] at hj; exact inv.computingCount j hj
    · intro j hj
      rcases eq_or_ne j i with h | h
      · rw [h, Function.update_same] at hj; cases hj
      · rw [Function.update_noteq h] at hj; exact inv.doneCount j hj
    · exact inv.countBound
    · intro hres hcount
      rcases inv.countWitness hres hcount with h | ⟨j, hj⟩
      · exact Or.inl h
      · refine Or.inr ⟨j, ?_⟩
        rcases eq_or_ne j i with h | h
        · rw [h, hpc] at hj; cases hj
        · rw [Function.update_noteq h]; exact hj
  | recheck_hit i v hpc hl hc =>
    refine ⟨?_, ?_, ?_, ?_, ?_, ?_⟩ <;> dsimp only
    · intro j hj
      rcases eq_or_ne j i with h | h
      · rw [h, Function.update_same] at hj; cases hj
      · rw [Function.update_noteq h] at hj
        have := inv.lockOwner j hj
        rw [hl] at this
        exact absurd (Option.some.inj this).symm h
    · intro h; exact inv.cacheCount h
    · intro j hj
      rcases eq_or_ne j i with h | h
      · rw [h, Function.update_same] at hj; cases hj
      · rw [Function.update_noteq h] at hj; exact inv.computingCount j hj
    · intro j _; exact inv.cacheCount (by rw [hc]; rfl)
    · exact inv.countBound
    · intro hres hcount
      exact Or.inl (by rw [hc]; rfl)
  | recheck_miss i hpc hl hc =>
    refine ⟨?_, ?_, ?_, ?_, ?_, ?_⟩ <;> dsimp only
    · intro j hj
      rcases eq_or_ne j i with h | h
      · rw [h]; exact hl
      · rw [Function.update_noteq h] at hj; exact inv.lockOwner j hj
    · intro _; exact Nat.le_add_left 1 s.count
    · intro j _; exact Nat.le_add_left 1 s.count
    · intro j _; exact Nat.le_add_left 1 s.count
    · intro hres
      have hzero : s.count = 0 := by
        by_contra hne
        have h1 : s.count = 1 :=
          le_antisymm (inv.countBound hres) (Nat.one_le_iff_ne_zero.mpr hne)
        rcases inv.countWitness hres h1 with h | ⟨j, hj⟩
        · rw [hc] at h; cases h
        · have := inv.lockOwner j hj
          rw [hl] at this
          have hji : j = i := Option.some.inj this.symm
          rw [hji, hpc] at hj; cases hj
      omega
    · intro _ _
      exact Or.inr ⟨i, by rw [Function.update_same]⟩
  | compute_done i hpc hl =>
    refine ⟨?_, ?_, ?_, ?_, ?_, ?_⟩ <;> dsimp only
    · intro j hj
      rcases eq_or_ne j i with h | h
      · rw [h, Function.update_same] at hj; cases hj
      · rw [Function.update_noteq h] at hj
        have := inv.lockOwner j hj
        rw [hl] at this
        exact absurd (Option.some.inj this).symm h
    · intro _; exact inv.computingCount i hpc
    · intro j hj
      rcases eq_or_ne j i with h | h
      · rw [h, Function.update_same] at hj; cases hj
      · rw [Function.update_noteq h] at hj; exact inv.computingCount j hj
    · intro j _; exact inv.computingCount i hpc
    · exact inv.countBound
    · intro hres _
      refine Or.inl ?_
      simp [hres]

theorem SFInv.reachable {n : ℕ} {V : Type} {res : Option V} {s : SFState n V}
    (h : SFReachable res s) : SFInv res s := by
  induction h with
  | refl => exact SFInv.init res
  | tail _ hstep ih => exact ih.step hstep

/-- C3: in every reachable state of `n` threads running `_get_or_compute`
for the same key, (a) at most one thread at a time is executing the compute
function — the others are blocked on the per-key lock or already done; (b)
when the compute function produces a value, the compute function has been
entered at most once over the whole history; (c) in a completed run
(`n ≥ 1` threads, all done, compute producing a value) the compute function
ran exactly once — every other thread re-checked the cache under the lock
and returned the cached value without recomputing. -/
theorem single_flight_spec {n : ℕ} {V : Type} (res : Option V) (s : SFState n V)
    (hreach : SFReachable res s) :
    (∀ i j, s.pcs i = PC.computing → s.pcs j = PC.computing → i = j) ∧
    (res.isSome = true → s.count ≤ 1) ∧
    (res.isSome = true → 0 < n → (∀ i, s.pcs i = PC.done) → s.count = 1) := by
  have inv := SFInv.reachable hreach
  refine ⟨?_, inv.countBound, ?_⟩
  · intro i j hi hj
    have h1 := inv.lockOwner i hi
    have h2 := inv.lockOwner j hj
    rw [h1] at h2
    exact Option.some.inj h2
  · intro hres hn hall
    have h1 := inv.doneCount ⟨0, hn⟩ (hall ⟨0, hn⟩)
    have h2 := inv.countBound hres
    omega

/-! A concrete completed run with one thread and compute result `some 5`,
used by the witness of `single_flight_spec`. -/

def sfDemo0 : SFState 1 ℕ := SFState.init 1 ℕ

def sfDemo1 : SFState 1 ℕ :=
  { cache := none, lock := none,
    pcs := Function.update (fun _ => PC.start) 0 PC.waiting, count := 0 }

def sfDemo2 : SFState 1 ℕ :=
  { cache := none, lock := some 0,
    pcs := Function.update (Function.update (fun _ => PC.start) 0 PC.waiting) 0 PC.locked,
    count := 0 }

def sfDemo3 : SFState 1 ℕ :=
  { cache := none, lock := some 0,
    pcs := Function.update
      (Function.update (Function.update (fun _ => PC.start) 0 PC.waiting) 0 PC.locked)
      0 PC.computing,
    count := 0 + 1 }

def sfDemo4 : SFState 1 ℕ :=
  { cache := some 5, lock := none,
    pcs := Function.update
      (Function.update
        (Function.update (Function.update (fun _ => PC.start) 0 PC.waiting) 0 PC.locked)
        0 PC.computing)
      0 PC.done,
    count := 0 + 1 }

theorem sfDemo_reachable : SFReachable (some 5) sfDemo4 := by
  have h1 : SFStep (some 5) sfDemo0 sfDemo1 := SFStep.start_miss sfDemo0 0 rfl rfl
  have h2 : SFStep (some 5) sfDemo1 sfDemo2 := SFStep.acquire sfDemo1 0 rfl rfl
  have h3 : SFStep (some 5) sfDemo2 sfDemo3 := SFStep.recheck_miss sfDemo2 0 rfl rfl rfl
  have h4 : SFStep (some 5) sfDemo3 sfDemo4 := SFStep.compute_done sfDemo3 0 rfl rfl
  exact .tail (.tail (.tail (.tail .refl h1) h2) h3) h4

/-- Witness for C3: the completed one-thread run with compute result
`some 5` entered the compute function exactly once. -/
theorem single_flight_spec_witness : sfDemo4.count = 1 :=
  (single_flight_spec (some 5) sfDemo4 sfDemo_reachable).2.2 rfl (by decide)
    (fun i => by fin_cases i; rfl)

/-! ## Point IDW evaluator (model_service.py l. 147-196)

`interpolate_value` / `_wrap_lon_0_360` / `find_nearest_grid_indices` /
`bilinear_from_indices`.  The 2D numpy arrays are row-major flat lists plus
a column count: `array[r, c] = flat[r * cols + c]`, `array.ravel() = flat`.
Python float arithmetic (including `math.sqrt`) is modelled exactly over
`ℝ`; `1e-9` and `1e-14` are `1 / 10 ^ 9` and `1 / 10 ^ 14`.  `np.argsort`
is modelled as a sort of the index list by the keyed value (`np.argsort`'s
default quicksort fixes no tie order; the choice of tie order only affects
which of several equally-near cells is called "the nearest"). -/

noncomputable def wrap_lon_0_360 (lon : ℝ) : ℝ := if lon < 0 then lon + 360 else lon

noncomputable def argsort (d : List ℝ) : List ℕ :=
  (List.range d.length).insertionSort fun i j => d.getD i 0 ≤ d.getD j 0

noncomputable def find_nearest_grid_indices (flat_lats flat_lons : List ℝ) (cols : ℕ)
    (target_lat target_lon : ℝ) (k : ℕ) : List (ℕ × ℕ) :=
  let d2 := List.zipWith
    (fun la lo => (la - target_lat) ^ 2 + (lo - target_lon) ^ 2) flat_lats flat_lons
  ((argsort d2).take k).map fun idx => (idx / cols, idx % cols)

/-- The per-cell weights `1.0 / (dist + 1e-9)` of the
`bilinear_from_indices` loop, in `rc_list` order. -/
noncomputable def bilinearWeights (flat_lats flat_lons : List ℝ) (cols : ℕ)
    (rc_list : List (ℕ × ℕ)) (target_lat target_lon : ℝ) : List ℝ :=
  rc_list.map fun rc =>
    1 / (Real.sqrt ((flat_lats.getD (rc.1 * cols + rc.2) 0 - target_lat) ^ 2 +
          (flat_lons.getD (rc.1 * cols + rc.2) 0 - target_lon) ^ 2) + 1 / 10 ^ 9)

/-- The per-cell data values of the `bilinear_from_indices` loop, in
`rc_list` order. -/
def bilinearVals (flat_data : List ℝ) (cols : ℕ) (rc_list : List (ℕ × ℕ)) : List ℝ :=
  rc_list.map fun rc => flat_data.getD (rc.1 * cols + rc.2) 0

noncomputable def bilinear_from_indices (flat_lats flat_lons flat_data : List ℝ)
    (cols : ℕ) (rc_list : List (ℕ × ℕ)) (target_lat target_lon : ℝ) : ℝ :=
  let weights := bilinearWeights flat_lats flat_lons cols rc_list target_lat target_lon
  let vals := bilinearVals flat_data cols rc_list
  let total_w := weights.sum
  if total_w < 1 / 10 ^ 14 then vals.getD 0 0
  else (List.zipWith (· * ·) vals weights).sum / total_w

noncomputable def interpolate_value (flat_data flat_lats flat_lons : List ℝ)
    (cols : ℕ) (target_lat target_lon : ℝ) : ℝ :=
  let wrapped_lon := wrap_lon_0_360 target_lon
  let rc_list := find_nearest_grid_indices flat_lats flat_lons cols target_lat wrapped_lon 4
  bilinear_from_indices flat_lats flat_lons flat_data cols rc_list target_lat wrapped_lon

/-- C9: the point evaluator selects cells by ascending squared lat/lon
distance (the index sort is ordered by the keyed distances and is a
permutation of all cell indices, so the first `k = 4` are nearest); when
the weight sum is below `1e-14` it returns the first selected (nearest)
cell's value, otherwise the weighted mean with weight `1/(d + 1e-9)` per
cell (stated product-form: `result · Σw = Σ v·w`); and on grid values
`[[1,2],[3,4]]` with lats `[[0,0],[1,1]]`, lons `[[0,1],[0,1]]`, the value
at target `(0.5, 0.5)` is exactly `5/2`, hence within `1e-9` of `2.5`. -/
theorem interpolate_value_spec :
    (∀ d : List ℝ,
        List.Sorted (fun i j => d.getD i 0 ≤ d.getD j 0) (argsort d) ∧
          (argsort d).Perm (List.range d.length)) ∧
    (∀ (flat_lats flat_lons flat_data : List ℝ) (cols : ℕ)
        (rc_list : List (ℕ × ℕ)) (tlat tlon : ℝ),
        ((bilinearWeights flat_lats flat_lons cols rc_list tlat tlon).sum < 1 / 10 ^ 14 →
          bilinear_from_indices flat_lats flat_lons flat_data cols rc_list tlat tlon =
            (bilinearVals flat_data cols rc_list).getD 0 0) ∧
        (¬(bilinearWeights flat_lats flat_lons cols rc_list tlat tlon).sum < 1 / 10 ^ 14 →
          bilinear_from_indices flat_lats flat_lons flat_data cols rc_list tlat tlon *
              (bilinearWeights flat_lats flat_lons cols rc_list tlat tlon).sum =
            (List.zipWith (· * ·) (bilinearVals flat_data cols rc_list)
              (bilinearWeights flat_lats flat_lons cols rc_list tlat tlon)).sum)) ∧
    interpolate_value [1, 2, 3, 4] [0, 0, 1, 1] [0, 1, 0, 1] 2 (1/2) (1/2) = 5/2 ∧
    |interpolate_value [1, 2, 3, 4] [0, 0, 1, 1] [0, 1, 0, 1] 2 (1/2) (1/2) - 5/2| ≤
      1 / 10 ^ 9 := by
  have hexample :
      interpolate_value [1, 2, 3, 4] [0, 0, 1, 1] [0, 1, 0, 1] 2 (1/2) (1/2) = 5/2 := by
    have hwrap : wrap_lon_0_360 (1/2 : ℝ) = 1/2 := by
      rw [wrap_lon_0_360, if_neg (by norm_num)]
    have hd2 : List.zipWith
        (fun la lo => (la - (1/2 : ℝ)) ^ 2 + (lo - (1/2 : ℝ)) ^ 2)
        [0, 0, 1, 1] [0, 1, 0, 1] = [1/2, 1/2, 1/2, 1/2] := by
      norm_num [List.zipWith]
    have hs : List.Sorted
        (fun i j => ([1/2, 1/2, 1/2, 1/2] : List ℝ).getD i 0 ≤
          ([1/2, 1/2, 1/2, 1/2] : List ℝ).getD j 0) [0, 1, 2, 3] := by
      norm_num [List.sorted_cons]
    have hfind : find_nearest_grid_indices [0, 0, 1, 1] [0, 1, 0, 1] 2 (1/2) (1/2) 4 =
        [(0, 0), (0, 1), (1, 0), (1, 1)] := by
      have ha : argsort [1/2, 1/2, 1/2, 1/2] = [0, 1, 2, 3] := by
        have hr : List.range ([1/2, 1/2, 1/2, 1/2] : List ℝ).length = [0, 1, 2, 3] := rfl
        rw [argsort, hr, List.Sorted.insertionSort_eq hs]
      rw [find_nearest_grid_indices, hd2, ha]
      rfl
    have hw : bilinearWeights [0, 0, 1, 1] [0, 1, 0, 1] 2
        [(0, 0), (0, 1), (1, 0), (1, 1)] (1/2) (1/2) =
        List.replicate 4 (1 / (Real.sqrt (1/2) + 1 / 10 ^ 9)) := by
      norm_num [bilinearWeights, List.replicate]
    have hv : bilinearVals [1, 2, 3, 4] 2 [(0, 0), (0, 1), (1, 0), (1, 1)] = [1, 2, 3, 4] := by
      norm_num [bilinearVals]
    set w : ℝ := 1 / (Real.sqrt (1/2) + 1 / 10 ^ 9) with hwdef
    have hden_pos : (0 : ℝ) < Real.sqrt (1/2) + 1 / 10 ^ 9 := by positivity
    have hw_ge : (1/2 : ℝ) ≤ w := by
      rw [hwdef]
      have hsqrt_le : Real.sqrt (1/2) ≤ 1 := by
        have h := Real.sqrt_le_sqrt (by norm_num : (1/2 : ℝ) ≤ 1)
        simpa [Real.sqrt_one] using h
      have hle2 : Real.sqrt (1/2) + 1 / 10 ^ 9 ≤ 2 := by
        have := Real.sqrt_nonneg (1/2 : ℝ)
        linarith
      calc (1/2 : ℝ) = 1 / 2 := by norm_num
      _ ≤ 1 / (Real.sqrt (1/2) + 1 / 10 ^ 9) := one_div_le_one_div_of_le hden_pos hle2
    have hsum : (List.replicate 4 w).sum = 4 * w := by
      simp [List.sum_replicate]
      ring
    simp only [interpolate_value, hwrap, hfind, bilinear_from_indices, hw, hv, hsum]
    rw [if_neg (by nlinarith)]
    have hzip : (List.zipWith (· * ·) [(1 : ℝ), 2, 3, 4] (List.replicate 4 w)).sum
        = 10 * w := by
      simp [List.zipWith, List.replicate]
      ring
    rw [hzip]
    have hwne : w ≠ 0 := by positivity
    field_simp
    ring
  refine ⟨?_, ?_, hexample, by rw [hexample]; norm_num⟩
  · intro d
    haveI : IsTotal ℕ (fun i j => d.getD i 0 ≤ d.getD j 0) := ⟨fun _ _ => le_total _ _⟩
    haveI : IsTrans ℕ (fun i j => d.getD i 0 ≤ d.getD j 0) :=
      ⟨fun _ _ _ hab hbc => le_trans hab hbc⟩
    exact ⟨List.sorted_insertionSort _ _, List.perm_insertionSort _ _⟩
  · intro flat_lats flat_lons flat_data cols rc_list tlat tlon
    constructor
    · intro hlt
      simp only [bilinear_from_indices]
      rw [if_pos hlt]
    · intro hge
      simp only [bilinear_from_indices]
      rw [if_neg hge]
      have hne : (bilinearWeights flat_lats flat_lons cols rc_list tlat tlon).sum ≠ 0 := by
        intro h0
        rw [h0] at hge
        exact hge (by norm_num)
      exact div_mul_cancel₀ _ hne

/-- Witness for C9: the fallback branch on an empty cell list, and the
product form on a single zero-distance cell with value `5`. -/
theorem interpolate_value_spec_witness :
    bilinear_from_indices [] [] [] 1 [] 0 0 = (bilinearVals [] 1 []).getD 0 0 ∧
    bilinear_from_indices [0] [0] [5] 1 [(0, 0)] 0 0 *
        (bilinearWeights [0] [0] 1 [(0, 0)] 0 0).sum =
      (List.zipWith (· * ·) (bilinearVals [5] 1 [(0, 0)])
        (bilinearWeights [0] [0] 1 [(0, 0)] 0 0)).sum :=
  ⟨(interpolate_value_spec.2.1 [] [] [] 1 [] 0 0).1
      (by norm_num [bilinearWeights]),
    (interpolate_value_spec.2.1 [0] [0] [5] 1 [(0, 0)] 0 0).2
      (by norm_num [bilinearWeights, Real.sqrt_zero])⟩

end Foreshadow
